import Mathlib

/-!
Verification of the elektrine-haraka queue-to-delivery pipeline.

JavaScript strings are modelled as lists of UTF-16 code units (`JStr`);
for strings whose units are all ≤ 0xFF the units coincide with the code
points, which is the only case in which the charset repair acts.
-/

namespace Elektrine

/-- A JavaScript string: its sequence of UTF-16 code units. -/
abbrev JStr := List Nat

/-- Embed a Lean string literal (BMP characters only) as a `JStr`. -/
def js (s : String) : JStr := s.data.map Char.toNat

/-! ## Text/Charset Normalizer (`lib/text-normalizer.js`) -/

/-- `has_c1_controls`: the regex `[\u0080-\u009F]` test. -/
def has_c1_controls (value : JStr) : Bool :=
  value.any (fun u => 0x80 ≤ u && u ≤ 0x9F)

/-- `count_mojibake_utf8_latin1_pairs`: counts adjacent unit pairs that look
like a UTF-8 lead byte followed by a continuation byte. -/
def count_mojibake_utf8_latin1_pairs : JStr → Nat
  | a :: b :: rest =>
      (if 0xC2 ≤ a && a ≤ 0xF4 && 0x80 ≤ b && b ≤ 0xBF then 1 else 0) +
        count_mojibake_utf8_latin1_pairs (b :: rest)
  | _ => 0

/-- Encode one code point as UTF-16 code units (surrogate pair above 0xFFFF). -/
def utf16_units (cp : Nat) : List Nat :=
  if cp < 0x10000 then [cp]
  else [0xD800 + (cp - 0x10000) / 0x400, 0xDC00 + (cp - 0x10000) % 0x400]

/-- Strict UTF-8 decoding of a byte sequence into UTF-16 code units
(`Buffer.toString('utf8')`; `none` models output containing U+FFFD). -/
def decode_utf8 : List Nat → Option (List Nat)
  | [] => some []
  | b :: rest =>
      if b < 0x80 then
        (decode_utf8 rest).map (fun tl => b :: tl)
      else if 0xC2 ≤ b ∧ b ≤ 0xDF then
        match rest with
        | c1 :: rest' =>
            if 0x80 ≤ c1 ∧ c1 ≤ 0xBF then
              (decode_utf8 rest').map (fun tl => ((b - 0xC0) * 0x40 + (c1 - 0x80)) :: tl)
            else none
        | _ => none
      else if 0xE0 ≤ b ∧ b ≤ 0xEF then
        match rest with
        | c1 :: c2 :: rest' =>
            let lo1 := if b = 0xE0 then 0xA0 else 0x80
            let hi1 := if b = 0xED then 0x9F else 0xBF
            if (lo1 ≤ c1 ∧ c1 ≤ hi1) ∧ (0x80 ≤ c2 ∧ c2 ≤ 0xBF) then
              (decode_utf8 rest').map
                (fun tl => ((b - 0xE0) * 0x1000 + (c1 - 0x80) * 0x40 + (c2 - 0x80)) :: tl)
            else none
        | _ => none
      else if 0xF0 ≤ b ∧ b ≤ 0xF4 then
        match rest with
        | c1 :: c2 :: c3 :: rest' =>
            let lo1 := if b = 0xF0 then 0x90 else 0x80
            let hi1 := if b = 0xF4 then 0x8F else 0xBF
            if (lo1 ≤ c1 ∧ c1 ≤ hi1) ∧ (0x80 ≤ c2 ∧ c2 ≤ 0xBF) ∧ (0x80 ≤ c3 ∧ c3 ≤ 0xBF) then
              (decode_utf8 rest').map (fun tl =>
                utf16_units ((b - 0xF0) * 0x40000 + (c1 - 0x80) * 0x1000 +
                  (c2 - 0x80) * 0x40 + (c3 - 0x80)) ++ tl)
            else none
        | _ => none
      else none

/-- `try_repair_utf8_latin1_mojibake`: reinterpret the code points as raw
bytes, re-decode them as UTF-8 and keep the result only when the objective
mojibake evidence strictly improves. -/
def try_repair_utf8_latin1_mojibake (value : JStr) : JStr :=
  if value.isEmpty then value
  else if value.any (fun cp => 0xFF < cp) then value
  else
    match decode_utf8 value with
    | none => value
    | some repaired =>
        if repaired.isEmpty || repaired.contains 0xFFFD then value
        else
          let before_controls := has_c1_controls value
          let after_controls := has_c1_controls repaired
          let before_pairs := count_mojibake_utf8_latin1_pairs value
          let after_pairs := count_mojibake_utf8_latin1_pairs repaired
          if before_controls && !after_controls then repaired
          else if 0 < before_pairs ∧ after_pairs < before_pairs then repaired
          else value

/-- `normalize_header` (the non-string branch of the source is a no-op and is
outside the string model). -/
def normalize_header (value : JStr) : JStr :=
  try_repair_utf8_latin1_mojibake value

/-! ## Bounce detector (`lib/bounce-detector.js`) -/

/-- JavaScript `String.prototype.trim` whitespace (the WhiteSpace and
LineTerminator code units). -/
def is_js_whitespace (u : Nat) : Bool :=
  u = 0x09 || u = 0x0A || u = 0x0B || u = 0x0C || u = 0x0D || u = 0x20 ||
  u = 0xA0 || u = 0x1680 || (0x2000 ≤ u && u ≤ 0x200A) || u = 0x2028 ||
  u = 0x2029 || u = 0x202F || u = 0x205F || u = 0x3000 || u = 0xFEFF

/-- `String.prototype.trim`. -/
def js_trim (s : JStr) : JStr :=
  (s.dropWhile is_js_whitespace).reverse.dropWhile is_js_whitespace |>.reverse

/-- `String.prototype.toLowerCase` restricted to the ASCII range (the bounce
patterns are all ASCII). -/
def js_lower (s : JStr) : JStr :=
  s.map (fun u => if 0x41 ≤ u && u ≤ 0x5A then u + 0x20 else u)

/-- `String.prototype.includes`: substring containment. -/
def js_includes (haystack pat : JStr) : Bool :=
  match haystack with
  | [] => pat.isEmpty
  | _ :: t => pat.isPrefixOf haystack || js_includes t pat

/-- `BOUNCE_INDICATORS.sender_patterns`. -/
def sender_patterns : List JStr :=
  [js "mailer-daemon", js "postmaster", js "mail-daemon", js "mailerdaemon"]

/-- `BOUNCE_INDICATORS.subject_patterns`. -/
def subject_patterns : List JStr :=
  [js "delivery", js "bounce", js "failure", js "undelivered", js "returned",
   js "undeliverable", js "delivery status", js "delivery failed",
   js "mail delivery", js "delivery notification",
   js "could not be delivered", js "not delivered"]

/-- `BOUNCE_INDICATORS.body_patterns`. -/
def body_patterns : List JStr :=
  [js "Original-Envelope-Id:", js "Reporting-MTA:", js "Final-Recipient:",
   js "Action: failed", js "Action: delayed", js "Diagnostic-Code:",
   js "Remote-MTA:", js "X-Postfix-Queue-ID:",
   js "This is the mail system at host",
   js "This message was created automatically",
   js "Delivery to the following recipient"]

/-- Options object of `is_bounce` (`debug`/`logger` have no observable
effect on the result and are omitted). -/
structure BounceOpts where
  strict : Bool := false
  envelope_from : Option JStr := none

/-- The decision block at the end of `is_bounce`: the `strict` branch and the
default branch of the source are textually identical. -/
def bounce_decision (strict null_sender sender_indicator subject_indicator : Bool)
    (body_indicator_count : Nat) : Bool :=
  if strict then
    (null_sender && (subject_indicator || decide (1 ≤ body_indicator_count) || sender_indicator)) ||
    decide (2 ≤ body_indicator_count) ||
    (sender_indicator && (subject_indicator || decide (1 ≤ body_indicator_count))) ||
    (subject_indicator && decide (1 ≤ body_indicator_count))
  else
    (null_sender && (subject_indicator || decide (1 ≤ body_indicator_count) || sender_indicator)) ||
    decide (2 ≤ body_indicator_count) ||
    (sender_indicator && (subject_indicator || decide (1 ≤ body_indicator_count))) ||
    (subject_indicator && decide (1 ≤ body_indicator_count))

/-- `is_bounce(from_email, subject, text_body, options)`. -/
def is_bounce (from_email subject text_body : JStr) (options : BounceOpts) : Bool :=
  let null_sender :=
    match options.envelope_from with
    | some ef => (js_trim ef).isEmpty || js_trim ef = js "<>"
    | none => from_email.isEmpty || (js_trim from_email).isEmpty
  let sender_indicator :=
    !from_email.isEmpty &&
      sender_patterns.any (fun p => js_includes (js_lower from_email) p)
  let subject_indicator :=
    !subject.isEmpty &&
      subject_patterns.any (fun p => js_includes (js_lower subject) p)
  let body_indicator_count :=
    if text_body.isEmpty then 0
    else body_patterns.countP (fun p => js_includes text_body p)
  bounce_decision options.strict null_sender sender_indicator subject_indicator
    body_indicator_count

/-- `bounce_decision` with the body-marker count truncated to `Fin 3`: the
decision depends on the count only through the thresholds `≥ 1` and `≥ 2`,
so this table is exhaustive over all signal combinations. -/
def bounce_decision_table (strict : Bool) : Bool × Bool × Bool × Fin 3 → Bool :=
  fun s => bounce_decision strict s.1 s.2.1 s.2.2.1 s.2.2.2.val

/-! ## Errors -/

/-- A thrown JavaScript error as the worker inspects it: `err.status || null`
and `err.message`. -/
structure Err where
  status : Option Int := none
  message : JStr := []
  deriving DecidableEq

/-- The permanent-failure test of `send_webhook_with_retry`:
`status >= 400 && status < 500 && status !== 429` (all comparisons are false
when the status is `null`). -/
def is_permanent_4xx (e : Err) : Bool :=
  match e.status with
  | some s => decide (400 ≤ s) && decide (s < 500) && decide (s ≠ 429)
  | none => false

/-- `is_charset_decode_error` (`lib/mime-parser.js`). -/
def is_charset_decode_error (e : Err) : Bool :=
  if e.message.isEmpty then false
  else
    [js "charset", js "encoding", js "iconv", js "decode"].any
      (fun p => js_includes (js_lower e.message) p)

/-! ## Decoded message and header values -/

/-- A header value as stored in the parsed header map. -/
inductive HVal where
  | str (s : JStr)
  | num (n : Int)
  | bool (b : Bool)
  | arr (items : List JStr)
  | txt (text : JStr)
  | undef
  deriving DecidableEq

/-- A mailparser address object (only its display `text` is consumed). -/
structure Addr where
  text : JStr
  deriving DecidableEq

/-- A mailparser attachment object, restricted to the properties the
attachment handler reads (`content` is the raw byte buffer). -/
structure AttachmentIn where
  filename : Option JStr := none
  name : Option JStr := none
  contentType : Option JStr := none
  content_type : Option JStr := none
  size : Option Nat := none
  cid : Option JStr := none
  content : Option (List Nat) := none
  deriving DecidableEq

/-- A mailparser result, restricted to the fields this pipeline consumes.
`header_subject` carries the result of `decode_subject_from_header_lines`:
the raw `Subject:` header line after RFC 2047 decoding by the external
`libmime` library (`none` when the header line is missing or blank). -/
structure Parsed where
  from_ : Option Addr := none
  to_ : Option Addr := none
  cc_ : Option Addr := none
  subject : Option JStr := none
  text : Option JStr := none
  html : Option JStr := none
  headers : List (JStr × HVal) := []
  header_subject : Option JStr := none
  attachments : List AttachmentIn := []
  deriving DecidableEq

/-! ## MIME strategy scoring (`lib/mime-parser.js`) -/

/-- `count_mojibake_pairs`: the mime module re-implements the same byte-pair
count as the text normalizer. -/
def count_mojibake_pairs (value : JStr) : Nat :=
  count_mojibake_utf8_latin1_pairs value

/-- `parsed_mojibake_score`: pair count across subject, text body, HTML body
and the from/to/cc display texts, each capped to a 4096-unit prefix. -/
def parsed_mojibake_score (p : Parsed) : Nat :=
  let field := fun (v : Option JStr) =>
    match v with
    | some s => count_mojibake_pairs (if 4096 < s.length then s.take 4096 else s)
    | none => 0
  field p.subject + field p.text + field p.html +
    field (p.from_.map Addr.text) + field (p.to_.map Addr.text) +
    field (p.cc_.map Addr.text)

/-- `text_quality_score`: weighted count of mojibake pairs, C1 controls and
replacement characters (lower is better). -/
def text_quality_score (value : JStr) : Nat :=
  count_mojibake_pairs value * 5 +
    (value.countP (fun u => 0x80 ≤ u && u ≤ 0x9F)) * 3 +
    (value.countP (fun u => u = 0xFFFD)) * 8

/-- `decode_subject_from_header_lines`: the raw header-line lookup and the
RFC 2047 decode are performed by the external `libmime` library; their
result is the `header_subject` field. -/
def decode_subject_from_header_lines (p : Parsed) : Option JStr :=
  p.header_subject

/-- `choose_best_subject`. -/
def choose_best_subject (parsed_subject header_line_subject : JStr) : JStr :=
  let parsed_candidate := normalize_header parsed_subject
  let header_candidate := normalize_header header_line_subject
  if !header_candidate.isEmpty &&
      decide (text_quality_score header_candidate < text_quality_score parsed_candidate) then
    header_candidate
  else parsed_candidate

/-- `normalize_parsed_headers`: replaces the subject by the better of the two
normalized candidates. -/
def normalize_parsed_headers (p : Parsed) : Parsed :=
  { p with
    subject := some (choose_best_subject (p.subject.getD [])
      ((decode_subject_from_header_lines p).getD [])) }

/-- `parse_mime`, with the two external mailparser runs supplied as values:
`first` is the native-iconv strategy (which can throw), `second` the
iconv-lite strategy. Mirrors the selection logic of the source when the
native iconv library is available. -/
def parse_mime (first : Except Err Parsed) (second : Parsed) : Except Err Parsed :=
  match first with
  | .ok parsed_with_iconv =>
      let iconv_score := parsed_mojibake_score parsed_with_iconv
      if iconv_score = 0 then .ok (normalize_parsed_headers parsed_with_iconv)
      else
        let iconv_lite_score := parsed_mojibake_score second
        if iconv_lite_score < iconv_score then .ok (normalize_parsed_headers second)
        else .ok (normalize_parsed_headers parsed_with_iconv)
  | .error err =>
      if is_charset_decode_error err then .ok (normalize_parsed_headers second)
      else .error err

/-! ## Spam extractor (`lib/spam-extractor.js`) -/

/-- The spam info record. Scores are carried as rationals: the JavaScript
values are IEEE doubles, but no claim computes with them and the
`parseFloat` fragment exercised here is exact on decimal literals. -/
structure SpamInfo where
  status : JStr
  score : Rat
  threshold : Rat
  report : Option JStr
  status_header : Option JStr
  deriving DecidableEq

/-- `get_default_spam_info`. -/
def get_default_spam_info : SpamInfo :=
  { status := js "unknown", score := 0, threshold := 5, report := none,
    status_header := none }

/-- The `spamassassin` notes object consumed by `parse_spamassassin_notes`.
Numeric fields hold the (exact) value of `parseFloat` on the original
property, `none` when the property is absent. -/
structure SpamNotes where
  score : Option Rat := none
  reqd : Option Rat := none
  flag : Option JStr := none
  tests : Option JStr := none
  deriving DecidableEq

/-- `parse_spamassassin_notes`. The `|| 0.0` fallback on the score is the
identity on exact values; the `|| 5.0` fallback on the threshold maps a
falsy (zero) parse to 5. -/
def parse_spamassassin_notes (sa : SpamNotes) (spam_info : SpamInfo) : SpamInfo :=
  let si := match sa.score with
    | some v => { spam_info with score := v }
    | none => spam_info
  let si := match sa.reqd with
    | some v => { si with threshold := if v = 0 then 5 else v }
    | none => si
  let si := match sa.flag with
    | some f => { si with status := if f = js "Yes" then js "spam" else js "ham" }
    | none => si
  match sa.tests with
  | some t => if t.isEmpty then si else { si with report := some t }
  | none => si

/-- JavaScript truthiness of a header value. -/
def hval_truthy : Option HVal → Bool
  | some (.str s) => !s.isEmpty
  | some (.num n) => decide (n ≠ 0)
  | some (.bool b) => b
  | some (.arr _) => true
  | some (.txt _) => true
  | some .undef => false
  | none => false

/-- Case-sensitive lookup in the header map. -/
def headers_get (headers : List (JStr × HVal)) (name : JStr) : Option HVal :=
  (headers.find? (fun kv => kv.1 = name)).map Prod.snd

/-- The `get_header` closure of `parse_spam_headers`:
`headers.get(name) || headers.get(name.toLowerCase())`. -/
def get_header (headers : List (JStr × HVal)) (name : JStr) : Option HVal :=
  let v := headers_get headers name
  if hval_truthy v then v else headers_get headers (js_lower name)

/-- `a || b` on looked-up header values. -/
def hval_or (a b : Option HVal) : Option HVal :=
  if hval_truthy a then a else b

/-- A digit code unit. -/
def is_digit_unit (u : Nat) : Bool := 0x30 ≤ u && u ≤ 0x39

/-- The character class `[-\d.]` of the spam-status score regex. -/
def is_float_class (u : Nat) : Bool :=
  u = 0x2D || u = 0x2E || is_digit_unit u

/-- Numeric value of a most-significant-first digit-unit list. -/
def nat_of_digit_units (l : JStr) : Nat :=
  l.foldl (fun a u => a * 10 + (u - 0x30)) 0

/-- `parseFloat` on a token drawn from the class `[-\d.]`: optional sign,
integer digits, optional fraction; trailing garbage is ignored; `none`
models `NaN`. -/
def parse_float (s : JStr) : Option Rat :=
  let (neg, s1) : Bool × JStr := match s with
    | 0x2D :: t => (true, t)
    | _ => (false, s)
  let ip := s1.takeWhile is_digit_unit
  let rest := s1.drop ip.length
  let fp := match rest with
    | 0x2E :: t => t.takeWhile is_digit_unit
    | _ => []
  if ip.isEmpty && fp.isEmpty then none
  else
    let mag : Rat :=
      (nat_of_digit_units ip : Rat) + (nat_of_digit_units fp : Rat) / ((10 : Rat) ^ fp.length)
    some (if neg then -mag else mag)

/-- First match of the regex `key([-\d.]+)`: find an occurrence of `key`
followed by at least one class character, capturing the maximal run (the
engine resumes one unit later after an occurrence with an empty run). -/
def regex_capture_after (key : JStr) : JStr → Option JStr
  | [] => none
  | s@(_ :: t) =>
      if key.isPrefixOf s then
        let cap := (s.drop key.length).takeWhile is_float_class
        if cap.isEmpty then regex_capture_after key t else some cap
      else regex_capture_after key t

/-- `parse_spam_headers`. -/
def parse_spam_headers (headers : List (JStr × HVal)) (spam_info : SpamInfo) :
    SpamInfo :=
  let spam_status := hval_or (get_header headers (js "X-Spam-Status"))
    (get_header headers (js "x-spam-status"))
  let spam_score := hval_or (get_header headers (js "X-Spam-Score"))
    (get_header headers (js "x-spam-score"))
  let spam_report := hval_or (get_header headers (js "X-Spam-Report"))
    (get_header headers (js "x-spam-report"))
  if hval_truthy spam_status || hval_truthy spam_score then
    let si := match spam_status with
      | some (.str s) =>
          if s.isEmpty then spam_info
          else
            let si := { spam_info with status_header := some s }
            let si := match regex_capture_after (js "score=") s with
              | some cap => { si with score := (parse_float cap).getD 0 }
              | none => si
            let si := match regex_capture_after (js "required=") s with
              | some cap =>
                  { si with threshold :=
                      match parse_float cap with
                      | some v => if v = 0 then 5 else v
                      | none => 5 }
              | none => si
            { si with status := if (js "Yes").isPrefixOf s then js "spam" else js "ham" }
      | _ => spam_info
    let si := match spam_score with
      | some (.str s) =>
          if s.isEmpty then si
          else
            match parse_float s with
            | some v => { si with score := if v = 0 then si.score else v }
            | none => si
      | _ => si
    match spam_report with
    | some (.str s) => if s.isEmpty then si else { si with report := some s }
    | _ => si
  else spam_info

/-- Connection/transaction notes as the extractor sees them. -/
structure NotesCtx where
  spamassassin : Option SpamNotes := none
  deriving DecidableEq

/-- `extract` of the spam extractor. In the source the `spam_info` object is
mutated in place, so `header_result` aliases `spam_info` and the
`status !== 'unknown'` check selects between two references to the same
mutated object; the header result is therefore returned unconditionally. -/
def spam_extract (connection transaction : NotesCtx)
    (headers : Option (List (JStr × HVal))) : SpamInfo :=
  let spam_info := get_default_spam_info
  match transaction.spamassassin with
  | some sa => parse_spamassassin_notes sa spam_info
  | none =>
      match connection.spamassassin with
      | some sa => parse_spamassassin_notes sa spam_info
      | none =>
          match headers with
          | some hs => parse_spam_headers hs spam_info
          | none => spam_info

/-! ## Attachment extractor -/

/-- Decimal code units of a natural number. -/
def nat_units (n : Nat) : JStr :=
  if n = 0 then [0x30] else (Nat.digits 10 n).reverse.map (fun d => d + 0x30)

/-- The standard base64 alphabet, as code units. -/
def b64_char (i : Nat) : Nat :=
  ((js "ABCDEFGHIJKLMNOPQRSTUVWXYZabcdefghijklmnopqrstuvwxyz0123456789+/").getD
    i 0x3D)

/-- A formatted attachment as built by the attachment handler. The primary
path leaves `md5` unset; the notes-fallback path leaves `content_id` unset
and never carries content. -/
structure AttachmentOut where
  filename : JStr
  content_type : JStr
  size : Nat
  content_id : Option JStr := none
  md5 : Option JStr := none
  content : Option JStr := none
  encoding : JStr := js "base64"
  index : Nat := 0
  deriving DecidableEq

/-- The attachment extractor's result. -/
structure AttachmentData where
  attachments : List AttachmentOut
  count : Nat
  has_attachments : Bool
  deriving DecidableEq

/-- `a || b` on an optional string property: a missing or empty (falsy)
value falls through to the next alternative. -/
def js_str_or (a : Option JStr) (b : JStr) : JStr :=
  match a with
  | some s => if s.isEmpty then b else s
  | none => b

/-- `a || b` on an optional numeric property: a missing or zero (falsy)
value falls through to the next alternative. -/
def js_nat_or (a : Option Nat) (b : Nat) : Nat :=
  match a with
  | some n => if n = 0 then b else n
  | none => b

/-- Base64 encoding of a byte sequence (standard alphabet, `=` padding). -/
def to_base64_bytes : List Nat → JStr
  | [] => []
  | [a] =>
      [b64_char (a / 4), b64_char (a % 4 * 16), 0x3D, 0x3D]
  | [a, b] =>
      [b64_char (a / 4), b64_char (a % 4 * 16 + b / 16),
        b64_char (b % 16 * 4), 0x3D]
  | a :: b :: c :: rest =>
      [b64_char (a / 4), b64_char (a % 4 * 16 + b / 16),
        b64_char (b % 16 * 4 + c / 64), b64_char (c % 64)] ++ to_base64_bytes rest

/-- `to_base64` (`lib/attachment-handler.js`, the second document of
`src/lib/telemetry.js`): absent content gives `null`, a buffer is base64
encoded (the string branch first UTF-8 encodes; contents are modelled as
byte buffers). -/
def to_base64 (content : Option (List Nat)) : Option JStr :=
  match content with
  | none => none
  | some bytes => some (to_base64_bytes bytes)

/-- `format_attachment` (`lib/attachment-handler.js`): filename falls back
`att.filename || att.name || attachment_<index>` (0-based), content type
`att.contentType || att.content_type || 'application/octet-stream'`, size
`att.size || (att.content ? att.content.length : 0)`, content id
`att.cid || null`, and base64 content only when `include_content` is set
and content is present. -/
def format_attachment (att : AttachmentIn) (index : Nat)
    (include_content : Bool) : AttachmentOut :=
  let content_base64 :=
    if include_content && att.content.isSome then to_base64 att.content
    else none
  { filename := js_str_or att.filename
      (js_str_or att.name (js "attachment_" ++ nat_units index))
    content_type := js_str_or att.contentType
      (js_str_or att.content_type (js "application/octet-stream"))
    size := js_nat_or att.size (match att.content with
      | some c => c.length
      | none => 0)
    content_id := (match att.cid with
      | some s => if s.isEmpty then none else some s
      | none => none)
    md5 := none
    content := content_base64
    encoding := js "base64"
    index := index }

/-- A file entry of the upstream attachment-scanning plugin's notes. -/
structure AttachmentNotesFile where
  filename : Option JStr := none
  name : Option JStr := none
  ctype : Option JStr := none
  content_type : Option JStr := none
  bytes : Option Nat := none
  size : Option Nat := none
  md5 : Option JStr := none
  deriving DecidableEq

/-- `transaction.notes.attachment` as the extractor reads it. -/
structure AttachmentNotes where
  files : Option (List AttachmentNotesFile) := none
  deriving DecidableEq

/-- `extract` (`lib/attachment-handler.js`): the mailparser attachment list
is the primary source; when it is empty, attachment metadata from the
transaction notes is used (no content available there); otherwise no
attachments. -/
def attachments_extract (transaction_attachment : Option AttachmentNotes)
    (parsed_attachments : List AttachmentIn) (include_content : Bool) :
    AttachmentData :=
  if !parsed_attachments.isEmpty then
    let attachment_count := parsed_attachments.length
    let attachments := parsed_attachments.enum.map
      (fun p => format_attachment p.2 p.1 include_content)
    { attachments := attachments, count := attachment_count,
      has_attachments := decide (0 < attachment_count) }
  else
    match transaction_attachment with
    | some att_notes =>
        match att_notes.files with
        | some files =>
            let attachment_count := files.length
            let attachments := files.enum.map (fun p =>
              { filename := js_str_or p.2.filename
                  (js_str_or p.2.name (js "attachment_" ++ nat_units p.1))
                content_type := js_str_or p.2.ctype
                  (js_str_or p.2.content_type (js "application/octet-stream"))
                size := js_nat_or p.2.bytes (js_nat_or p.2.size 0)
                content_id := none
                md5 := p.2.md5
                content := none
                encoding := js "base64"
                index := p.1 : AttachmentOut })
            { attachments := attachments, count := attachment_count,
              has_attachments := decide (0 < attachment_count) }
        | none => { attachments := [], count := 0, has_attachments := false }
    | none => { attachments := [], count := 0, has_attachments := false }

/-! ## Worker payload assembly (`scripts/elektrine-worker.js`) -/

/-- Worker configuration (the fields `process_message` consults). -/
structure Cfg where
  include_body : Bool := true
  include_headers : Bool := true
  include_attachments : Bool := true
  webhook_max_retries : Nat := 5
  webhook_retry_base_delay_ms : Nat := 1000
  deriving DecidableEq

/-- The `spamassassin` verdict carried inside a queue entry. -/
structure EnvelopeSA where
  score : Option Rat := none
  required : Option Rat := none
  flag : Option JStr := none
  tests : Option JStr := none
  deriving DecidableEq

/-- A queue entry (envelope) as the worker consumes it. -/
structure Envelope where
  message_id : JStr := []
  mail_from : JStr := []
  rcpt_to : List JStr := []
  data_bytes : Nat := 0
  spamassassin : Option EnvelopeSA := none
  deriving DecidableEq

/-- `as_header_object`: string and `.text` values are normalized, arrays are
joined with `", "`, `undefined`/`null` entries are skipped. -/
def as_header_object (headers : List (JStr × HVal)) : List (JStr × HVal) :=
  headers.filterMap (fun kv =>
    match kv.2 with
    | .undef => none
    | .str s => some (kv.1, .str (normalize_header s))
    | .num n => some (kv.1, .num n)
    | .bool b => some (kv.1, .bool b)
    | .arr items => some (kv.1, .str (List.intercalate (js ", ") items))
    | .txt t => some (kv.1, .str (normalize_header t)))

/-- `build_spam_context`: transaction notes carry the envelope verdict
(fields renamed `required` → `reqd`), connection notes are empty. -/
def build_spam_context (envelope : Envelope) : NotesCtx × NotesCtx :=
  (⟨none⟩,
   ⟨envelope.spamassassin.map (fun sa => ⟨sa.score, sa.required, sa.flag, sa.tests⟩)⟩)

/-- The delivery payload (the ISO-8601 `timestamp` field is wall-clock time
and is not modelled). -/
structure WebhookData where
  message_id : JStr
  from_email : JStr
  to_email : JStr
  rcpt_to : JStr
  mail_from : JStr
  subject : JStr
  text_body : JStr
  html_body : JStr
  headers : Option (List (JStr × HVal))
  spam_status : JStr
  spam_score : Rat
  spam_threshold : Rat
  spam_report : Option JStr
  spam_status_header : Option JStr
  attachments : List AttachmentOut
  attachment_count : Nat
  has_attachments : Bool
  size : Nat
  is_bounce : Bool
  deriving DecidableEq

/-- `build_webhook_data`. -/
def build_webhook_data (cfg : Cfg) (envelope : Envelope) (parsed : Parsed) :
    WebhookData :=
  let from_email := normalize_header
    (match parsed.from_ with | some a => a.text | none => envelope.mail_from)
  let subject := normalize_header (parsed.subject.getD [])
  let text_body := if cfg.include_body then parsed.text.getD [] else []
  let html_body := if cfg.include_body then parsed.html.getD [] else []
  let to_email := normalize_header
    (match parsed.to_ with
     | some a => a.text
     | none => (envelope.rcpt_to.head?).getD [])
  let rcpt_to := normalize_header ((envelope.rcpt_to.head?).getD [])
  let mail_from := normalize_header envelope.mail_from
  let ctx := build_spam_context envelope
  let spam_data := spam_extract ctx.1 ctx.2 (some parsed.headers)
  let attachment_data := attachments_extract none parsed.attachments
    cfg.include_attachments
  { message_id := envelope.message_id
    from_email := from_email
    to_email := to_email
    rcpt_to := rcpt_to
    mail_from := mail_from
    subject := subject
    text_body := text_body
    html_body := html_body
    headers := if cfg.include_headers then some (as_header_object parsed.headers) else none
    spam_status := spam_data.status
    spam_score := spam_data.score
    spam_threshold := spam_data.threshold
    spam_report := spam_data.report
    spam_status_header := spam_data.status_header
    attachments := attachment_data.attachments
    attachment_count := attachment_data.count
    has_attachments := attachment_data.has_attachments
    size := envelope.data_bytes
    is_bounce := is_bounce from_email subject text_body
      { envelope_from := some mail_from } }

/-! ## Delivery client (`send_webhook_with_retry`) -/

instance instDecEqExcept {ε α : Type} [DecidableEq ε] [DecidableEq α] :
    DecidableEq (Except ε α)
  | .ok a, .ok b =>
      if h : a = b then .isTrue (by rw [h]) else .isFalse (by simp [h])
  | .ok _, .error _ => .isFalse (by simp)
  | .error _, .ok _ => .isFalse (by simp)
  | .error e, .error f =>
      if h : e = f then .isTrue (by rw [h]) else .isFalse (by simp [h])

/-- Observable outcome of one `send_webhook_with_retry` run: the final
result, the per-call success flags, the number of `retried` counter
increments, and the sleeps (in ms) between consecutive attempts. -/
structure SendResult where
  result : Except Err Unit
  attempts : List Bool
  retried : Nat
  delays : List Nat
  deriving DecidableEq

/-- The retry loop body. The delivery endpoint is the oracle:
`oracle k = none` means attempt `k` succeeds, `some e` that it throws `e`.
The structural argument `fuel` counts the remaining loop iterations,
`maxr + 1 - attempt`; the loop guard `attempt <= max_retries` is exactly
`fuel > 0`, and when it fails the function returns without a further call
(in the source the async function then resolves). -/
def send_go (maxr base : Nat) (oracle : Nat → Option Err) :
    Nat → Nat → SendResult
  | _, 0 => ⟨.ok (), [], 0, []⟩
  | attempt, fuel + 1 =>
      match oracle attempt with
      | none => ⟨.ok (), [true], 0, []⟩
      | some err =>
          if is_permanent_4xx err || decide (maxr ≤ attempt) then
            ⟨.error err, [false], 0, []⟩
          else
            let r := send_go maxr base oracle (attempt + 1) fuel
            ⟨r.result, false :: r.attempts, r.retried + 1,
              base * 2 ^ attempt :: r.delays⟩

/-- `send_webhook_with_retry` (attempts start at 0). -/
def send_webhook_with_retry (cfg : Cfg) (oracle : Nat → Option Err) : SendResult :=
  send_go cfg.webhook_max_retries cfg.webhook_retry_base_delay_ms oracle 0
    (cfg.webhook_max_retries + 1)

/-! ## Worker loop (`process_message`) -/

/-- A dead-letter entry (`push_dlq`): failure metadata wrapping the original
envelope (`failed_at` is wall-clock time and is not modelled). -/
structure DlqEntry where
  message_id : JStr
  error_status : Option Int
  error_message : JStr
  payload : Envelope
  deriving DecidableEq

/-- The DLQ payload built by `push_dlq`. -/
def mk_dlq_entry (envelope : Envelope) (error : Err) : DlqEntry :=
  { message_id := envelope.message_id
    error_status := error.status
    error_message := error.message
    payload := envelope }

/-- Externally observable side effects of one `process_message` call. -/
inductive Effect where
  | webhook_attempt (ok : Bool)
  | dlq_write (entry : DlqEntry)
  deriving DecidableEq

/-- The worker's process-lifetime counters. -/
structure Counters where
  consumed : Nat := 0
  delivered : Nat := 0
  skipped_bounce : Nat := 0
  retried : Nat := 0
  failed : Nat := 0
  dlq : Nat := 0
  deriving DecidableEq

/-- External outcomes for one dequeued element: the `JSON.parse` outcome,
the mailparser outcome, the delivery endpoint, and whether the DLQ write
itself succeeds. -/
structure WorkerInput where
  parse_result : Option Envelope
  mime_result : Except Err Parsed
  webhook : Nat → Option Err
  dlq_ok : Bool

/-- The failure arm of `process_message`: increment `failed`, then attempt
`push_dlq` (whose own failure is caught and only logged). -/
def handle_process_failure (c : Counters) (envelope : Envelope) (error : Err)
    (dlq_ok : Bool) : Counters × List Effect :=
  let c := { c with failed := c.failed + 1 }
  if dlq_ok then
    ({ c with dlq := c.dlq + 1 }, [.dlq_write (mk_dlq_entry envelope error)])
  else (c, [])

/-- `process_message`: counter deltas and effects of processing one raw
queue element. -/
def process_message (cfg : Cfg) (c : Counters) (inp : WorkerInput) :
    Counters × List Effect :=
  let c := { c with consumed := c.consumed + 1 }
  match inp.parse_result with
  | none => ({ c with failed := c.failed + 1 }, [])
  | some envelope =>
      match inp.mime_result with
      | .error err => handle_process_failure c envelope err inp.dlq_ok
      | .ok parsed =>
          let webhook_payload := build_webhook_data cfg envelope parsed
          if webhook_payload.is_bounce then
            ({ c with skipped_bounce := c.skipped_bounce + 1 }, [])
          else
            let s := send_webhook_with_retry cfg inp.webhook
            let c := { c with retried := c.retried + s.retried }
            let effects := s.attempts.map Effect.webhook_attempt
            match s.result with
            | .ok _ => ({ c with delivered := c.delivered + 1 }, effects)
            | .error err =>
                let fail := handle_process_failure c envelope err inp.dlq_ok
                (fail.1, effects ++ fail.2)

/-- The worker main loop restricted to its processing steps: fold
`process_message` over the dequeued elements, starting from zeroed
counters. -/
def run_worker (cfg : Cfg) (inputs : List WorkerInput) : Counters :=
  inputs.foldl (fun c inp => (process_message cfg c inp).1) {}

/-- Number of successful delivery calls among the effects. -/
def successful_sends (effects : List Effect) : Nat :=
  effects.countP (fun e => match e with | .webhook_attempt true => true | _ => false)

/-- The dead-letter entries written among the effects. -/
def dlq_writes (effects : List Effect) : List DlqEntry :=
  effects.filterMap (fun e => match e with | .dlq_write d => some d | _ => none)

/-- Non-decreasing check on a list of delays. -/
def nondecreasing : List Nat → Bool
  | a :: b :: t => decide (a ≤ b) && nondecreasing (b :: t)
  | _ => true

/-! ## Queue client (`lib/queue-client.js`) and JSON serialization

`enqueue` is `lPush(queue, JSON.stringify(payload))`, `pop` is
`brPop(queue, timeout)`: a Redis list receives at the head and is consumed
from the tail, so the store is modelled as a list with the newest element
first. `JSON.stringify`/`JSON.parse` are platform builtins, modelled here
on the JSON fragment the pipeline exchanges (numbers restricted to
integers; strings are arbitrary unit sequences). -/

mutual

/-- A JSON value. -/
inductive Json where
  | null
  | bool (b : Bool)
  | num (n : Int)
  | str (s : JStr)
  | arr (items : List Json)
  | obj (fields : List JField)

/-- An object member: a key and a value. -/
inductive JField where
  | mk (key : JStr) (val : Json)

end

/-- Upper-case hex digit unit. -/
def hex_digit (d : Nat) : Nat :=
  if d < 10 then 0x30 + d else 0x41 + (d - 10)

/-- Escape one string unit for JSON output: quote and backslash get a
two-unit escape, control units a `\u00XX` escape, all others pass through. -/
def esc_unit (u : Nat) : List Nat :=
  if u = 0x22 then [0x5C, 0x22]
  else if u = 0x5C then [0x5C, 0x5C]
  else if u < 0x20 then
    [0x5C, 0x75, hex_digit (u / 0x1000 % 16), hex_digit (u / 0x100 % 16),
      hex_digit (u / 0x10 % 16), hex_digit (u % 16)]
  else [u]

/-- Serialized JSON string: quoted, escaped. -/
def enc_string (s : JStr) : JStr :=
  0x22 :: (s.map esc_unit).flatten ++ [0x22]

/-- Serialized integer. -/
def enc_int (n : Int) : JStr :=
  if n < 0 then 0x2D :: nat_units n.natAbs else nat_units n.toNat

mutual

/-- `JSON.stringify` on the modelled fragment (no whitespace). -/
def json_enc : Json → JStr
  | .null => [0x6E, 0x75, 0x6C, 0x6C]
  | .bool true => [0x74, 0x72, 0x75, 0x65]
  | .bool false => [0x66, 0x61, 0x6C, 0x73, 0x65]
  | .num n => enc_int n
  | .str s => enc_string s
  | .arr [] => [0x5B, 0x5D]
  | .arr (x :: xs) => 0x5B :: enc_list x xs ++ [0x5D]
  | .obj [] => [0x7B, 0x7D]
  | .obj (kv :: kvs) => 0x7B :: enc_fields kv kvs ++ [0x7D]
  termination_by j => sizeOf j
  decreasing_by all_goals (simp_wf; try omega)

/-- Comma-separated serialization of a non-empty array tail. -/
def enc_list : Json → List Json → JStr
  | x, [] => json_enc x
  | x, y :: ys => json_enc x ++ 0x2C :: enc_list y ys
  termination_by x xs => sizeOf x + sizeOf xs
  decreasing_by all_goals (simp_wf; try omega)

/-- Comma-separated serialization of non-empty object members. -/
def enc_fields : JField → List JField → JStr
  | .mk k v, [] => enc_string k ++ 0x3A :: json_enc v
  | .mk k v, kv2 :: kvs => enc_string k ++ 0x3A :: json_enc v ++ 0x2C :: enc_fields kv2 kvs
  termination_by kv kvs => sizeOf kv + sizeOf kvs
  decreasing_by all_goals (simp_wf; try omega)

end

/-- Value of a JSON escape character, `\u` excluded. -/
def esc_char (e : Nat) : Option Nat :=
  if e = 0x22 then some 0x22
  else if e = 0x5C then some 0x5C
  else if e = 0x2F then some 0x2F
  else if e = 0x62 then some 0x8
  else if e = 0x66 then some 0xC
  else if e = 0x6E then some 0xA
  else if e = 0x72 then some 0xD
  else if e = 0x74 then some 0x9
  else none

/-- Value of a hex digit unit. -/
def hex_val (u : Nat) : Option Nat :=
  if 0x30 ≤ u ∧ u ≤ 0x39 then some (u - 0x30)
  else if 0x41 ≤ u ∧ u ≤ 0x46 then some (u - 0x41 + 10)
  else if 0x61 ≤ u ∧ u ≤ 0x66 then some (u - 0x61 + 10)
  else none

/-- Parse the body of a JSON string after the opening quote; returns the
decoded units and the remaining input (fuel bounds the number of decoded
units). -/
def parse_string_body : Nat → JStr → Option (JStr × JStr)
  | 0, _ => none
  | fuel + 1, s =>
      match s with
      | [] => none
      | u :: rest =>
          if u = 0x22 then some ([], rest)
          else if u = 0x5C then
            match rest with
            | [] => none
            | e :: rest2 =>
                if e = 0x75 then
                  match rest2 with
                  | a :: b :: c :: d :: rest3 =>
                      match hex_val a, hex_val b, hex_val c, hex_val d with
                      | some ha, some hb, some hc, some hd =>
                          (parse_string_body fuel rest3).map
                            (fun r => ((ha * 0x1000 + hb * 0x100 + hc * 0x10 + hd) :: r.1, r.2))
                      | _, _, _, _ => none
                  | _ => none
                else
                  match esc_char e with
                  | some w => (parse_string_body fuel rest2).map (fun r => (w :: r.1, r.2))
                  | none => none
          else (parse_string_body fuel rest).map (fun r => (u :: r.1, r.2))

/-- Parse a non-empty run of decimal digits. -/
def parse_int_digits (s : JStr) : Option (Nat × JStr) :=
  let ds := s.takeWhile is_digit_unit
  if ds.isEmpty then none
  else some (Nat.ofDigits 10 ((ds.map (fun u => u - 0x30)).reverse), s.drop ds.length)

mutual

/-- Recursive-descent JSON value parser (fuel-indexed; whitespace-free
canonical input, which is what the serializer emits). -/
def parse_value : Nat → JStr → Option (Json × JStr)
  | 0, _ => none
  | fuel + 1, s =>
      match s with
      | [] => none
      | u :: rest =>
          if u = 0x6E then
            match rest with
            | 0x75 :: 0x6C :: 0x6C :: r => some (.null, r)
            | _ => none
          else if u = 0x74 then
            match rest with
            | 0x72 :: 0x75 :: 0x65 :: r => some (.bool true, r)
            | _ => none
          else if u = 0x66 then
            match rest with
            | 0x61 :: 0x6C :: 0x73 :: 0x65 :: r => some (.bool false, r)
            | _ => none
          else if u = 0x22 then
            (parse_string_body (rest.length + 1) rest).map (fun r => (.str r.1, r.2))
          else if u = 0x2D then
            (parse_int_digits rest).map (fun r => (.num (-(r.1 : Int)), r.2))
          else if is_digit_unit u then
            (parse_int_digits (u :: rest)).map (fun r => (.num (r.1 : Int), r.2))
          else if u = 0x5B then
            match rest with
            | [] => none
            | c :: r2 =>
                if c = 0x5D then some (.arr [], r2)
                else (parse_elements fuel (c :: r2)).map (fun r => (.arr r.1, r.2))
          else if u = 0x7B then
            match rest with
            | [] => none
            | c :: r2 =>
                if c = 0x7D then some (.obj [], r2)
                else (parse_members fuel (c :: r2)).map (fun r => (.obj r.1, r.2))
          else none

/-- Parse the elements of a non-empty array up to the closing bracket. -/
def parse_elements : Nat → JStr → Option (List Json × JStr)
  | 0, _ => none
  | fuel + 1, s =>
      match parse_value fuel s with
      | none => none
      | some (v, r) =>
          match r with
          | [] => none
          | c :: r2 =>
              if c = 0x2C then
                (parse_elements fuel r2).map (fun p => (v :: p.1, p.2))
              else if c = 0x5D then some ([v], r2)
              else none

/-- Parse the members of a non-empty object up to the closing brace. -/
def parse_members : Nat → JStr → Option (List JField × JStr)
  | 0, _ => none
  | fuel + 1, s =>
      match s with
      | 0x22 :: s1 =>
          match parse_string_body (s1.length + 1) s1 with
          | none => none
          | some (k, r1) =>
              match r1 with
              | 0x3A :: r2 =>
                  match parse_value fuel r2 with
                  | none => none
                  | some (v, r3) =>
                      match r3 with
                      | [] => none
                      | c :: r4 =>
                          if c = 0x2C then
                            (parse_members fuel r4).map
                              (fun p => (JField.mk k v :: p.1, p.2))
                          else if c = 0x7D then some ([JField.mk k v], r4)
                          else none
              | _ => none
      | _ => none

end

/-- `JSON.parse`, requiring full consumption of the input. -/
def json_parse (s : JStr) : Option Json :=
  match parse_value (s.length + 1) s with
  | some (j, []) => some j
  | _ => none

mutual

/-- Fuel needed by `parse_value` for a given value. -/
def json_need : Json → Nat
  | .arr [] => 1
  | .arr (x :: xs) => 1 + need_list x xs
  | .obj [] => 1
  | .obj (kv :: kvs) => 1 + need_fields kv kvs
  | _ => 1
  termination_by j => sizeOf j
  decreasing_by all_goals (simp_wf; try omega)

/-- Fuel needed by `parse_elements`. -/
def need_list : Json → List Json → Nat
  | x, [] => 1 + json_need x
  | x, y :: ys => 1 + json_need x + need_list y ys
  termination_by x xs => sizeOf x + sizeOf xs
  decreasing_by all_goals (simp_wf; try omega)

/-- Fuel needed by `parse_members`. -/
def need_fields : JField → List JField → Nat
  | .mk _ v, [] => 1 + json_need v
  | .mk _ v, kv2 :: kvs => 1 + json_need v + need_fields kv2 kvs
  termination_by kv kvs => sizeOf kv + sizeOf kvs
  decreasing_by all_goals (simp_wf; try omega)

end

/-- The remainder after a serialized value never starts with a digit in any
position the parser reaches (separators, closers, or end of input). -/
def rest_ok : JStr → Bool
  | [] => true
  | u :: _ => !is_digit_unit u

/-- `QueueClient.enqueue`: serialize and `lPush` (newest first). -/
def QueueClient.enqueue (store : List JStr) (payload : Json) : List JStr :=
  json_enc payload :: store

/-- `QueueClient.pop`: `brPop` takes the element at the tail (the oldest);
an empty list models the timeout (`null` result). -/
def QueueClient.pop (store : List JStr) : Option JStr × List JStr :=
  match store.getLast? with
  | none => (none, store)
  | some x => (some x, store.dropLast)

/-- Repeatedly pop until the timeout result. -/
def drain_go : Nat → List JStr → List JStr
  | 0, _ => []
  | fuel + 1, store =>
      match QueueClient.pop store with
      | (none, _) => []
      | (some x, store2) => x :: drain_go fuel store2

/-- All elements of the store in consumption order. -/
def drain (store : List JStr) : List JStr :=
  drain_go store.length store

/-! ### JSON round-trip lemmas -/

theorem hex_val_hex_digit (d : Nat) (hd : d < 16) : hex_val (hex_digit d) = some d := by
  interval_cases d <;> rfl

theorem parse_string_body_enc (s : JStr) :
    ∀ rest fuel, s.length < fuel →
      parse_string_body fuel ((s.map esc_unit).flatten ++ 0x22 :: rest) =
        some (s, rest) := by
  induction s with
  | nil =>
      intro rest fuel hf
      cases fuel with
      | zero => omega
      | succ f => simp [parse_string_body]
  | cons u t ih =>
      intro rest fuel hf
      cases fuel with
      | zero => omega
      | succ f =>
          have hrec := ih rest f (by simp at hf; omega)
          simp only [List.map_cons, List.flatten_cons, List.append_assoc]
          by_cases h22 : u = 0x22
          · subst h22
            simp [esc_unit, parse_string_body, esc_char, hrec]
          · by_cases h5C : u = 0x5C
            · subst h5C
              simp [esc_unit, parse_string_body, esc_char, hrec]
            · by_cases hctl : u < 0x20
              · have e1 : u / 0x1000 % 16 < 16 := Nat.mod_lt _ (by norm_num)
                have e2 : u / 0x100 % 16 < 16 := Nat.mod_lt _ (by norm_num)
                have e3 : u / 0x10 % 16 < 16 := Nat.mod_lt _ (by norm_num)
                have e4 : u % 16 < 16 := Nat.mod_lt _ (by norm_num)
                have hu : u / 0x1000 % 16 * 0x1000 + u / 0x100 % 16 * 0x100 +
                    u / 0x10 % 16 * 0x10 + u % 16 = u := by omega
                simp only [esc_unit, h22, h5C, hctl, if_true, if_false, if_neg,
                  if_pos, List.cons_append, List.nil_append]
                simp [parse_string_body, hex_val_hex_digit _ e1,
                  hex_val_hex_digit _ e2, hex_val_hex_digit _ e3,
                  hex_val_hex_digit _ e4, hrec, hu]
              · have hge : ¬u < 0x20 := hctl
                simp only [esc_unit, h22, h5C, hge, if_false, if_neg,
                  List.cons_append, List.nil_append]
                simp [parse_string_body, h22, h5C, hrec]

theorem nat_units_head (m : Nat) :
    ∃ u t, nat_units m = u :: t ∧ is_digit_unit u = true ∧
      (∀ x ∈ nat_units m, is_digit_unit x = true) := by
  by_cases hm : m = 0
  · subst hm
    refine ⟨0x30, [], rfl, rfl, ?_⟩
    intro x hx
    have hx30 : x = 0x30 := by simpa [nat_units] using hx
    subst hx30
    rfl
  · have hall : ∀ x ∈ nat_units m, is_digit_unit x = true := by
      intro x hx
      simp only [nat_units, hm, if_false, if_neg, List.mem_map,
        List.mem_reverse] at hx
      obtain ⟨d, hd, rfl⟩ := hx
      have := Nat.digits_lt_base (by norm_num) hd
      simp only [is_digit_unit, Bool.and_eq_true, decide_eq_true_eq]
      omega
    have hne : nat_units m ≠ [] := by
      simp only [nat_units, hm, if_false, if_neg, ne_eq, List.map_eq_nil_iff,
        List.reverse_eq_nil_iff]
      simpa using Nat.digits_ne_nil_iff_ne_zero.mpr hm
    obtain ⟨u, t, hut⟩ := List.exists_cons_of_ne_nil hne
    exact ⟨u, t, hut, hall u (by rw [hut]; exact List.mem_cons_self u t), hall⟩

theorem takeWhile_append_all {p : Nat → Bool} :
    ∀ (a b : List Nat), (∀ x ∈ a, p x = true) →
      (a ++ b).takeWhile p = a ++ b.takeWhile p := by
  intro a
  induction a with
  | nil => intro b _; rfl
  | cons x xs ih =>
      intro b hall
      have hx := hall x (List.mem_cons_self x xs)
      simp [List.takeWhile_cons, hx, ih b (fun y hy => hall y (List.mem_cons_of_mem x hy))]

theorem takeWhile_rest_ok :
    ∀ (b : List Nat), rest_ok b = true → b.takeWhile is_digit_unit = [] := by
  intro b hb
  cases b with
  | nil => rfl
  | cons u t =>
      simp only [rest_ok, Bool.not_eq_true'] at hb
      simp [List.takeWhile_cons, hb]

theorem nat_units_value (m : Nat) :
    Nat.ofDigits 10 (((nat_units m).map (fun u => u - 0x30)).reverse) = m := by
  by_cases hm : m = 0
  · subst hm; rfl
  · simp only [nat_units, hm, if_false, if_neg, List.map_map, List.map_reverse,
      List.reverse_reverse]
    have hcomp : ((fun u => u - 0x30) ∘ fun d => d + 0x30) = id := by
      funext d; simp
    rw [hcomp, List.map_id, Nat.ofDigits_digits]

theorem parse_int_digits_units (m : Nat) (rest : JStr) (hrest : rest_ok rest = true) :
    parse_int_digits (nat_units m ++ rest) = some (m, rest) := by
  obtain ⟨u, t, hut, hu, hall⟩ := nat_units_head m
  have htake : (nat_units m ++ rest).takeWhile is_digit_unit = nat_units m := by
    rw [takeWhile_append_all _ _ hall, takeWhile_rest_ok rest hrest,
      List.append_nil]
  have hne : (nat_units m).isEmpty = false := by
    rw [hut]; rfl
  simp only [parse_int_digits, htake, hne, Bool.false_eq_true, if_false, if_neg,
    List.drop_left, nat_units_value]

theorem flatten_esc_len (s : JStr) :
    s.length ≤ ((s.map esc_unit).flatten).length := by
  induction s with
  | nil => simp
  | cons u t ih =>
      have h1 : 1 ≤ (esc_unit u).length := by
        unfold esc_unit
        split
        · simp
        · split
          · simp
          · split <;> simp
      simp only [List.map_cons, List.flatten_cons, List.length_append,
        List.length_cons]
      omega

theorem json_need_pos (j : Json) : 1 ≤ json_need j := by
  cases j with
  | arr items => cases items <;> simp [json_need]
  | obj fields => cases fields <;> simp [json_need]
  | _ => simp [json_need]

theorem need_list_pos (x : Json) (xs : List Json) : 1 ≤ need_list x xs := by
  cases xs <;> (simp [need_list]; try omega)

theorem need_fields_pos (kv : JField) (kvs : List JField) :
    1 ≤ need_fields kv kvs := by
  obtain ⟨k, v⟩ := kv
  cases kvs <;> (simp [need_fields]; try omega)

theorem json_enc_head (j : Json) :
    ∃ u t, json_enc j = u :: t ∧
      (u = 0x6E ∨ u = 0x74 ∨ u = 0x66 ∨ u = 0x22 ∨ u = 0x2D ∨
        is_digit_unit u = true ∨ u = 0x5B ∨ u = 0x7B) := by
  cases j with
  | null => exact ⟨0x6E, [0x75, 0x6C, 0x6C], by simp [json_enc], by tauto⟩
  | bool b => cases b with
      | true => exact ⟨0x74, [0x72, 0x75, 0x65], by simp [json_enc], by tauto⟩
      | false => exact ⟨0x66, [0x61, 0x6C, 0x73, 0x65], by simp [json_enc], by tauto⟩
  | num n =>
      by_cases hn : n < 0
      · refine ⟨0x2D, nat_units n.natAbs, ?_, by tauto⟩
        simp [json_enc, enc_int, hn]
      · obtain ⟨u, t, hut, hu, _⟩ := nat_units_head n.toNat
        refine ⟨u, t, ?_, by tauto⟩
        simp [json_enc, enc_int, hn, hut]
  | str s =>
      exact ⟨0x22, (s.map esc_unit).flatten ++ [0x22],
        by simp [json_enc, enc_string], by tauto⟩
  | arr items => cases items with
      | nil => exact ⟨0x5B, [0x5D], by simp [json_enc], by tauto⟩
      | cons x xs =>
          exact ⟨0x5B, enc_list x xs ++ [0x5D], by simp [json_enc], by tauto⟩
  | obj fields => cases fields with
      | nil => exact ⟨0x7B, [0x7D], by simp [json_enc], by tauto⟩
      | cons kv kvs =>
          exact ⟨0x7B, enc_fields kv kvs ++ [0x7D], by simp [json_enc], by tauto⟩

mutual

theorem rt_value (j : Json) (rest : JStr) (fuel : Nat)
    (hneed : json_need j ≤ fuel) (hrest : rest_ok rest = true) :
    parse_value fuel (json_enc j ++ rest) = some (j, rest) := by
  cases fuel with
  | zero => exact absurd (le_trans (json_need_pos j) hneed) (by omega)
  | succ f =>
      cases j with
      | null => simp [json_enc, parse_value]
      | bool b => cases b <;> simp [json_enc, parse_value]
      | num n =>
          by_cases hn : n < 0
          · have hval : -|n| = n := by rw [abs_of_neg hn]; ring
            simp [json_enc, enc_int, hn, parse_value,
              parse_int_digits_units _ _ hrest, hval]
          · obtain ⟨u, t, hut, hu, _⟩ := nat_units_head n.toNat
            have hd : 0x30 ≤ u ∧ u ≤ 0x39 := by
              simpa [is_digit_unit] using hu
            have h1 : ¬u = 0x6E := by omega
            have h2 : ¬u = 0x74 := by omega
            have h3 : ¬u = 0x66 := by omega
            have h4 : ¬u = 0x22 := by omega
            have h5 : ¬u = 0x2D := by omega
            have henc : json_enc (Json.num n) ++ rest = u :: (t ++ rest) := by
              simp [json_enc, enc_int, hn, hut]
            have hfold : u :: (t ++ rest) = nat_units n.toNat ++ rest := by
              simp [hut]
            have hval : ((n.toNat : Nat) : Int) = n := by omega
            rw [henc]
            simp only [parse_value, h1, h2, h3, h4, h5, hu, if_true, if_pos,
              if_false, if_neg, Bool.false_eq_true]
            rw [hfold, parse_int_digits_units _ _ hrest]
            simp [hval]
      | str s =>
          have hlen : s.length <
              ((s.map esc_unit).flatten ++ 0x22 :: rest).length + 1 := by
            have := flatten_esc_len s
            simp only [List.length_append, List.length_cons]
            omega
          have henc : json_enc (Json.str s) ++ rest =
              0x22 :: ((s.map esc_unit).flatten ++ 0x22 :: rest) := by
            simp [json_enc, enc_string]
          have hk := parse_string_body_enc s rest _ hlen
          simp only [List.length_append, List.length_cons, List.length_flatten,
            List.map_map] at hk
          rw [henc]
          simp [parse_value, hk]
      | arr items =>
          cases items with
          | nil => simp [json_enc, parse_value, is_digit_unit]
          | cons x xs =>
              obtain ⟨u, t, hut, hset⟩ := json_enc_head x
              have htail : ∃ tail, enc_list x xs = json_enc x ++ tail := by
                cases xs with
                | nil => exact ⟨[], by simp [enc_list]⟩
                | cons y ys => exact ⟨0x2C :: enc_list y ys, by simp [enc_list]⟩
              obtain ⟨tail, htail⟩ := htail
              have hu5D : ¬u = 0x5D := by
                rcases hset with h | h | h | h | h | h | h | h
                all_goals first
                  | omega
                  | (simp only [is_digit_unit, Bool.and_eq_true,
                      decide_eq_true_eq] at h; omega)
              have henc : json_enc (Json.arr (x :: xs)) ++ rest =
                  0x5B :: (u :: (t ++ tail ++ 0x5D :: rest)) := by
                simp [json_enc, htail, hut]
              have hfold : u :: (t ++ tail ++ 0x5D :: rest) =
                  enc_list x xs ++ 0x5D :: rest := by
                simp [htail, hut]
              rw [henc]
              simp only [parse_value, if_true, if_pos, if_false, if_neg,
                Bool.false_eq_true, hu5D, show ¬(0x5B : Nat) = 0x6E by omega,
                show ¬(0x5B : Nat) = 0x74 by omega,
                show ¬(0x5B : Nat) = 0x66 by omega,
                show ¬(0x5B : Nat) = 0x22 by omega,
                show ¬(0x5B : Nat) = 0x2D by omega,
                show is_digit_unit 0x5B = false from rfl]
              rw [hfold, rt_elements x xs rest f (by
                simp only [json_need] at hneed; omega)]
              rfl
      | obj fields =>
          cases fields with
          | nil => simp [json_enc, parse_value, is_digit_unit]
          | cons kv kvs =>
              cases kv with
              | mk k v =>
              have htail : ∃ tail, enc_fields (JField.mk k v) kvs =
                  0x22 :: ((k.map esc_unit).flatten ++ 0x22 :: tail) := by
                cases kvs with
                | nil =>
                    exact ⟨0x3A :: json_enc v, by simp [enc_fields, enc_string]⟩
                | cons kv2 kvs2 =>
                    exact ⟨0x3A :: (json_enc v ++ 0x2C :: enc_fields kv2 kvs2),
                      by simp [enc_fields, enc_string]⟩
              obtain ⟨tail, htail⟩ := htail
              have henc : json_enc (Json.obj (JField.mk k v :: kvs)) ++ rest =
                  0x7B :: (0x22 :: ((k.map esc_unit).flatten ++
                    0x22 :: (tail ++ 0x7D :: rest))) := by
                simp [json_enc, htail]
              have hfold :
                  0x22 :: ((k.map esc_unit).flatten ++
                    0x22 :: (tail ++ 0x7D :: rest)) =
                    enc_fields (JField.mk k v) kvs ++ 0x7D :: rest := by
                rw [htail]
                simp
              rw [henc]
              simp only [parse_value, if_true, if_pos, if_false, if_neg,
                Bool.false_eq_true,
                show ¬(0x7B : Nat) = 0x6E by omega,
                show ¬(0x7B : Nat) = 0x74 by omega,
                show ¬(0x7B : Nat) = 0x66 by omega,
                show ¬(0x7B : Nat) = 0x22 by omega,
                show ¬(0x7B : Nat) = 0x2D by omega,
                show is_digit_unit 0x7B = false from rfl,
                show ¬(0x22 : Nat) = 0x7D by omega]
              rw [hfold, rt_members k v kvs rest f (by
                simp only [json_need] at hneed; omega)]
              rfl
  termination_by sizeOf j

theorem rt_elements (x : Json) (xs : List Json) (rest : JStr) (fuel : Nat)
    (hneed : need_list x xs ≤ fuel) :
    parse_elements fuel (enc_list x xs ++ 0x5D :: rest) = some (x :: xs, rest) := by
  cases fuel with
  | zero => exact absurd (le_trans (need_list_pos x xs) hneed) (by omega)
  | succ f =>
      cases xs with
      | nil =>
          have hx := rt_value x (0x5D :: rest) f
            (by simp only [need_list] at hneed; omega) rfl
          simp only [enc_list]
          simp [parse_elements, hx]
      | cons y ys =>
          have hx := rt_value x (0x2C :: (enc_list y ys ++ 0x5D :: rest)) f
            (by simp only [need_list] at hneed; omega) rfl
          have hrec := rt_elements y ys rest f
            (by simp only [need_list] at hneed; omega)
          simp only [enc_list, List.append_assoc, List.cons_append]
          simp [parse_elements, hx, hrec]
  termination_by 1 + sizeOf x + sizeOf xs

theorem rt_members (k : JStr) (v : Json) (kvs : List JField) (rest : JStr)
    (fuel : Nat) (hneed : need_fields (JField.mk k v) kvs ≤ fuel) :
    parse_members fuel (enc_fields (JField.mk k v) kvs ++ 0x7D :: rest) =
      some (JField.mk k v :: kvs, rest) := by
  cases fuel with
  | zero =>
      exact absurd (le_trans (need_fields_pos (JField.mk k v) kvs) hneed) (by omega)
  | succ f =>
      cases kvs with
      | nil =>
          have hv := rt_value v (0x7D :: rest) f
            (by simp only [need_fields] at hneed; omega) rfl
          have hklen : ∀ (X : JStr), k.length <
              ((k.map esc_unit).flatten ++ 0x22 :: X).length + 1 := by
            intro X
            have := flatten_esc_len k
            simp only [List.length_append, List.length_cons]
            omega
          have hk := parse_string_body_enc k
            (0x3A :: (json_enc v ++ 0x7D :: rest)) _
            (hklen (0x3A :: (json_enc v ++ 0x7D :: rest)))
          simp only [List.length_append, List.length_cons, List.length_flatten,
            List.map_map] at hk
          simp only [enc_fields, enc_string, List.append_assoc,
            List.cons_append, List.nil_append]
          simp [parse_members, hk, hv]
      | cons kv2 kvs2 =>
          cases kv2 with
          | mk k2 v2 =>
          have hv := rt_value v
            (0x2C :: (enc_fields (JField.mk k2 v2) kvs2 ++ 0x7D :: rest)) f
            (by simp only [need_fields] at hneed; omega) rfl
          have hrec := rt_members k2 v2 kvs2 rest f
            (by simp only [need_fields] at hneed; omega)
          have hklen : ∀ (X : JStr), k.length <
              ((k.map esc_unit).flatten ++ 0x22 :: X).length + 1 := by
            intro X
            have := flatten_esc_len k
            simp only [List.length_append, List.length_cons]
            omega
          have hk := parse_string_body_enc k
            (0x3A :: (json_enc v ++
              0x2C :: (enc_fields (JField.mk k2 v2) kvs2 ++ 0x7D :: rest)))
            _
            (hklen (0x3A :: (json_enc v ++
              0x2C :: (enc_fields (JField.mk k2 v2) kvs2 ++ 0x7D :: rest))))
          simp only [List.length_append, List.length_cons, List.length_flatten,
            List.map_map] at hk
          simp only [enc_fields, enc_string, List.append_assoc,
            List.cons_append, List.nil_append]
          simp [parse_members, hk, hv, hrec]
  termination_by 1 + sizeOf k + sizeOf v + sizeOf kvs

end

mutual

theorem json_need_le (j : Json) : json_need j ≤ (json_enc j).length := by
  cases j with
  | null => simp [json_need, json_enc]
  | bool b => cases b <;> simp [json_need, json_enc]
  | num n =>
      obtain ⟨u, t, hut, _, _⟩ := nat_units_head n.natAbs
      obtain ⟨u2, t2, hut2, _, _⟩ := nat_units_head n.toNat
      by_cases hn : n < 0 <;>
        simp [json_need, json_enc, enc_int, hn, hut, hut2]
  | str s => simp [json_need, json_enc, enc_string]
  | arr items =>
      cases items with
      | nil => simp [json_need, json_enc]
      | cons x xs =>
          have h := need_list_le x xs
          simp only [json_need, json_enc, List.length_cons, List.length_append]
          omega
  | obj fields =>
      cases fields with
      | nil => simp [json_need, json_enc]
      | cons kv kvs =>
          have h := need_fields_le kv kvs
          simp only [json_need, json_enc, List.length_cons, List.length_append]
          omega
  termination_by sizeOf j

theorem need_list_le (x : Json) (xs : List Json) :
    need_list x xs ≤ (enc_list x xs).length + 1 := by
  cases xs with
  | nil =>
      have h := json_need_le x
      simp only [need_list, enc_list]
      omega
  | cons y ys =>
      have h1 := json_need_le x
      have h2 := need_list_le y ys
      simp only [need_list, enc_list, List.length_append, List.length_cons]
      omega
  termination_by 1 + sizeOf x + sizeOf xs

theorem need_fields_le (kv : JField) (kvs : List JField) :
    need_fields kv kvs ≤ (enc_fields kv kvs).length + 1 := by
  cases kv with
  | mk k v =>
      cases kvs with
      | nil =>
          have h := json_need_le v
          simp only [need_fields, enc_fields, List.length_append, List.length_cons]
          omega
      | cons kv2 kvs2 =>
          have h1 := json_need_le v
          have h2 := need_fields_le kv2 kvs2
          simp only [need_fields, enc_fields, List.length_append, List.length_cons]
          omega
  termination_by 1 + sizeOf kv + sizeOf kvs

end

/-- The JSON round trip: parsing a serialized value returns the value. -/
theorem json_roundtrip (P : Json) : json_parse (json_enc P) = some P := by
  have h := rt_value P [] ((json_enc P).length + 1)
    (by have := json_need_le P; omega) rfl
  rw [List.append_nil] at h
  simp [json_parse, h]

theorem drain_go_reverse :
    ∀ (fuel : Nat) (store : List JStr), store.length ≤ fuel →
      drain_go fuel store = store.reverse := by
  intro fuel
  induction fuel with
  | zero =>
      intro store h
      cases store with
      | nil => rfl
      | cons a t => simp at h
  | succ f ih =>
      intro store h
      cases store using List.reverseRecOn with
      | nil => rfl
      | append_singleton ys y =>
          have hys : ys.length ≤ f := by
            simp only [List.length_append, List.length_singleton] at h
            omega
          simp [drain_go, QueueClient.pop, List.getLast?_concat,
            List.dropLast_concat, ih ys hys]

theorem drain_reverse (store : List JStr) : drain store = store.reverse :=
  drain_go_reverse store.length store (le_refl _)

theorem foldl_enqueue (ps : List Json) :
    ∀ st, ps.foldl QueueClient.enqueue st = (ps.map json_enc).reverse ++ st := by
  induction ps with
  | nil => intro st; rfl
  | cons p ps ih =>
      intro st
      simp [List.foldl_cons, ih, QueueClient.enqueue]

/-! ### Retry-loop lemmas -/

theorem send_go_count_le (maxr base : Nat) (oracle : Nat → Option Err) :
    ∀ fuel attempt,
      (send_go maxr base oracle attempt fuel).attempts.count true ≤ 1 ∧
      (∀ e, (send_go maxr base oracle attempt fuel).result = .error e →
        (send_go maxr base oracle attempt fuel).attempts.count true = 0) := by
  intro fuel
  induction fuel with
  | zero => intro attempt; simp [send_go]
  | succ fuel ih =>
      intro attempt
      rw [send_go]
      cases horacle : oracle attempt with
      | none => simp
      | some err =>
          by_cases hperm : (is_permanent_4xx err || decide (maxr ≤ attempt)) = true
          · simp [hperm]
          · simp only [hperm, Bool.false_eq_true, if_false, if_neg,
              List.count_cons, show (false == true) = false from rfl]
            have hrec := ih (attempt + 1)
            constructor
            · omega
            · intro e he
              have := hrec.2 e he
              omega

theorem send_go_count_ok (maxr base : Nat) (oracle : Nat → Option Err) :
    ∀ fuel attempt, fuel = maxr + 1 - attempt → attempt ≤ maxr →
      (send_go maxr base oracle attempt fuel).result = .ok () →
      (send_go maxr base oracle attempt fuel).attempts.count true = 1 := by
  intro fuel
  induction fuel with
  | zero => intro attempt hfuel hle; omega
  | succ fuel ih =>
      intro attempt hfuel hle
      rw [send_go]
      cases horacle : oracle attempt with
      | none => simp
      | some err =>
          by_cases hperm : (is_permanent_4xx err || decide (maxr ≤ attempt)) = true
          · simp [hperm]
          · simp only [hperm, Bool.false_eq_true, if_false, if_neg,
              List.count_cons, show (false == true) = false from rfl]
            have hlt : attempt < maxr := by
              simp only [Bool.or_eq_true, decide_eq_true_eq, not_or] at hperm
              omega
            intro hok
            have := ih (attempt + 1) (by omega) (by omega) hok
            omega

theorem send_go_delays_shape (maxr base : Nat) (oracle : Nat → Option Err) :
    ∀ fuel attempt,
      (send_go maxr base oracle attempt fuel).delays =
        (List.range' attempt (send_go maxr base oracle attempt fuel).delays.length).map
          (fun i => base * 2 ^ i) := by
  intro fuel
  induction fuel with
  | zero => intro attempt; simp [send_go]
  | succ fuel ih =>
      intro attempt
      rw [send_go]
      cases horacle : oracle attempt with
      | none => simp
      | some err =>
          by_cases hperm : (is_permanent_4xx err || decide (maxr ≤ attempt)) = true
          · simp [hperm]
          · simp only [hperm, Bool.false_eq_true, if_false, if_neg,
              List.length_cons, List.range'_succ, List.map_cons,
              List.cons.injEq, true_and]
            exact ih (attempt + 1)

theorem send_go_attempts_le (maxr base : Nat) (oracle : Nat → Option Err) :
    ∀ fuel attempt,
      (send_go maxr base oracle attempt fuel).attempts.length ≤ fuel := by
  intro fuel
  induction fuel with
  | zero => intro attempt; simp [send_go]
  | succ fuel ih =>
      intro attempt
      rw [send_go]
      cases horacle : oracle attempt with
      | none => simp
      | some err =>
          by_cases hperm : (is_permanent_4xx err || decide (maxr ≤ attempt)) = true
          · simp [hperm]
          · simp only [hperm, Bool.false_eq_true, if_false, if_neg,
              List.length_cons]
            have := ih (attempt + 1)
            omega

theorem send_go_exhaust (maxr base : Nat) (oracle : Nat → Option Err) :
    ∀ fuel attempt, fuel = maxr + 1 - attempt → attempt ≤ maxr →
      (∀ j, attempt ≤ j → j ≤ maxr →
        ∃ e, oracle j = some e ∧ is_permanent_4xx e = false) →
      (∀ e, oracle maxr = some e →
        (send_go maxr base oracle attempt fuel).result = .error e) ∧
      (send_go maxr base oracle attempt fuel).attempts.length = fuel ∧
      (send_go maxr base oracle attempt fuel).retried = fuel - 1 ∧
      (send_go maxr base oracle attempt fuel).delays.length = fuel - 1 := by
  intro fuel
  induction fuel with
  | zero => intro attempt hfuel hle; omega
  | succ fuel ih =>
      intro attempt hfuel hle hall
      obtain ⟨e, he, hperm⟩ := hall attempt (le_refl _) hle
      rw [send_go]
      cases fuel with
      | zero =>
          have heq : attempt = maxr := by omega
          simp only [he]
          have hcond : (is_permanent_4xx e || decide (maxr ≤ attempt)) = true := by
            simp [heq]
          simp only [hcond, if_true, if_pos]
          refine ⟨?_, by simp, by simp, by simp⟩
          intro e' he'
          rw [heq] at he
          rw [he] at he'
          cases he'
          rfl
      | succ fuel' =>
          have hlt : attempt < maxr := by omega
          simp only [he]
          have hcond : (is_permanent_4xx e || decide (maxr ≤ attempt)) = false := by
            simp [hperm]; omega
          simp only [hcond, Bool.false_eq_true, if_false, if_neg]
          have hrec := ih (attempt + 1) (by omega) (by omega)
            (fun j hj1 hj2 => hall j (by omega) hj2)
          simp only [List.length_cons]
          exact ⟨fun e' he' => hrec.1 e' he', by omega, by omega, by omega⟩

theorem nondecreasing_pow_delays (base : Nat) :
    ∀ n a, nondecreasing ((List.range' a n).map (fun i => base * 2 ^ i)) = true := by
  intro n
  induction n with
  | zero => intro a; rfl
  | succ m ih =>
      intro a
      cases m with
      | zero => rfl
      | succ m' =>
          rw [List.range'_succ, List.map_cons]
          rw [List.range'_succ, List.map_cons]
          show (decide (base * 2 ^ a ≤ base * 2 ^ (a + 1)) &&
            nondecreasing (base * 2 ^ (a + 1) ::
              (List.range' (a + 1 + 1) m').map (fun i => base * 2 ^ i))) = true
          have h1 : base * 2 ^ a ≤ base * 2 ^ (a + 1) :=
            Nat.mul_le_mul_left base (Nat.pow_le_pow_right (by omega) (by omega))
          have h2 := ih (a + 1)
          rw [List.range'_succ, List.map_cons] at h2
          simp [h1, h2]

/-! ### Worker effect lemmas -/

theorem successful_sends_map (l : List Bool) :
    successful_sends (l.map Effect.webhook_attempt) = l.count true := by
  induction l with
  | nil => rfl
  | cons b t ih =>
      cases b <;>
        simp [successful_sends, List.count_cons, List.countP_cons] at * <;>
        omega

theorem dlq_writes_map (l : List Bool) :
    dlq_writes (l.map Effect.webhook_attempt) = [] := by
  induction l with
  | nil => rfl
  | cons b t ih => simp [dlq_writes] at *

theorem successful_sends_handle (c : Counters) (envelope : Envelope) (e : Err)
    (dlq_ok : Bool) :
    successful_sends (handle_process_failure c envelope e dlq_ok).2 = 0 := by
  cases dlq_ok <;> simp [handle_process_failure, successful_sends]

/-- The per-call counter invariant step. -/
theorem process_message_inv (cfg : Cfg) (c : Counters) (inp : WorkerInput)
    (h1 : c.consumed = c.delivered + c.skipped_bounce + c.failed)
    (h2 : c.dlq ≤ c.failed) :
    (process_message cfg c inp).1.consumed =
      (process_message cfg c inp).1.delivered +
        (process_message cfg c inp).1.skipped_bounce +
        (process_message cfg c inp).1.failed ∧
    (process_message cfg c inp).1.dlq ≤ (process_message cfg c inp).1.failed := by
  obtain ⟨parse_result, mime_result, webhook, dlq_ok⟩ := inp
  cases parse_result with
  | none => simp [process_message]; omega
  | some envelope =>
      cases mime_result with
      | error err =>
          cases dlq_ok <;> simp [process_message, handle_process_failure] <;> omega
      | ok parsed =>
          by_cases hb : (build_webhook_data cfg envelope parsed).is_bounce
          · simp [process_message, hb]; omega
          · cases hres : (send_webhook_with_retry cfg webhook).result with
            | ok u => simp [process_message, hb, hres]; omega
            | error e =>
                cases dlq_ok <;>
                  simp [process_message, hb, hres, handle_process_failure] <;>
                  omega

theorem successful_sends_append (a b : List Effect) :
    successful_sends (a ++ b) = successful_sends a + successful_sends b :=
  List.countP_append _ _ _

theorem dlq_writes_append (a b : List Effect) :
    dlq_writes (a ++ b) = dlq_writes a ++ dlq_writes b :=
  List.filterMap_append _ _ _

/-- The effect trace of a successfully-parsed element, by case. -/
theorem process_effects (cfg : Cfg) (c : Counters) (envelope : Envelope)
    (parsed : Parsed) (webhook : Nat → Option Err) (dlq_ok : Bool) :
    (process_message cfg c ⟨some envelope, .ok parsed, webhook, dlq_ok⟩).2 =
      if (build_webhook_data cfg envelope parsed).is_bounce then []
      else
        (send_webhook_with_retry cfg webhook).attempts.map Effect.webhook_attempt ++
          (match (send_webhook_with_retry cfg webhook).result with
           | .ok _ => []
           | .error e =>
               if dlq_ok then [.dlq_write (mk_dlq_entry envelope e)] else []) := by
  by_cases hb : (build_webhook_data cfg envelope parsed).is_bounce
  · simp [process_message, hb]
  · cases hres : (send_webhook_with_retry cfg webhook).result with
    | ok u => simp [process_message, hb, hres]
    | error e =>
        cases dlq_ok <;> simp [process_message, hb, hres, handle_process_failure]

/-! ## Claim theorems -/

/-- C1: for a dequeued queue entry with a non-empty recipient list whose
processing succeeds — the raw element parses as JSON (`some envelope`), MIME
decoding succeeds (`.ok parsed`), and the run's webhook delivery eventually
succeeds (at least one successful `send_webhook` call happens) —
`process_message` makes exactly one successful delivery call, writes nothing
to the DLQ, and increments the `delivered` counter by one. -/
theorem C1_success_single_delivery (cfg : Cfg) (c : Counters)
    (envelope : Envelope) (parsed : Parsed) (webhook : Nat → Option Err)
    (dlq_ok : Bool) (_hrcpt : envelope.rcpt_to ≠ [])
    (hsucc : 1 ≤ successful_sends
      (process_message cfg c ⟨some envelope, .ok parsed, webhook, dlq_ok⟩).2) :
    successful_sends
      (process_message cfg c ⟨some envelope, .ok parsed, webhook, dlq_ok⟩).2 = 1 ∧
    dlq_writes
      (process_message cfg c ⟨some envelope, .ok parsed, webhook, dlq_ok⟩).2 = [] ∧
    (process_message cfg c ⟨some envelope, .ok parsed, webhook, dlq_ok⟩).1.delivered
      = c.delivered + 1 := by
  rw [process_effects] at hsucc ⊢
  by_cases hb : (build_webhook_data cfg envelope parsed).is_bounce
  · rw [if_pos hb] at hsucc
    simp [successful_sends] at hsucc
  · rw [if_neg hb] at hsucc ⊢
    cases hres : (send_webhook_with_retry cfg webhook).result with
    | ok u =>
        have hcnt : (send_webhook_with_retry cfg webhook).attempts.count true = 1 := by
          cases u
          exact send_go_count_ok cfg.webhook_max_retries
            cfg.webhook_retry_base_delay_ms webhook (cfg.webhook_max_retries + 1) 0
            (by omega) (by omega) hres
        refine ⟨?_, ?_, ?_⟩
        · rw [successful_sends_append, successful_sends_map, hcnt]
          simp [successful_sends]
        · rw [dlq_writes_append, dlq_writes_map]
          simp [dlq_writes]
        · have hb' : (build_webhook_data cfg envelope parsed).is_bounce = false := by
            simpa using hb
          simp [process_message, hb', hres]
    | error e =>
        exfalso
        have hcnt : (send_webhook_with_retry cfg webhook).attempts.count true = 0 :=
          (send_go_count_le cfg.webhook_max_retries
            cfg.webhook_retry_base_delay_ms webhook (cfg.webhook_max_retries + 1) 0).2
            e hres
        rw [hres] at hsucc
        cases dlq_ok <;>
          simp [successful_sends_append, successful_sends_map, successful_sends]
            at hsucc <;>
          exact absurd hsucc (List.count_eq_zero.mp hcnt)

/-- C1 witness: a concrete entry (one recipient, benign content, an endpoint
that accepts on the first attempt) makes exactly one successful delivery
call and no DLQ write. -/
theorem C1_success_single_delivery_witness :
    (1 : Nat) ≤ successful_sends
      (process_message {} {}
        ⟨some { rcpt_to := [js "a@b.c"] }, .ok {}, fun _ => none, true⟩).2 ∧
    successful_sends
      (process_message {} {}
        ⟨some { rcpt_to := [js "a@b.c"] }, .ok {}, fun _ => none, true⟩).2 = 1 ∧
    dlq_writes
      (process_message {} {}
        ⟨some { rcpt_to := [js "a@b.c"] }, .ok {}, fun _ => none, true⟩).2 = [] := by
  have h := C1_success_single_delivery {} {} { rcpt_to := [js "a@b.c"] } {}
    (fun _ => none) true (by decide) (by decide)
  exact ⟨by decide, h.1, h.2.1⟩

/-- C3: an element that does not parse as JSON only increments `consumed`
and `failed` and produces no effect (no DLQ write, no delivery call); an
element that parses but whose MIME decode or delivery throws produces
exactly one dead-letter entry wrapping the original envelope, provided the
DLQ write itself succeeds. -/
theorem C3_error_handling (cfg : Cfg) (c : Counters) (inp : WorkerInput) :
    (inp.parse_result = none →
      process_message cfg c inp =
        ({ c with consumed := c.consumed + 1, failed := c.failed + 1 }, [])) ∧
    (∀ envelope err parsed,
      inp.parse_result = some envelope →
      inp.dlq_ok = true →
      (inp.mime_result = .error err ∨
        (inp.mime_result = .ok parsed ∧
          (build_webhook_data cfg envelope parsed).is_bounce = false ∧
          (send_webhook_with_retry cfg inp.webhook).result = .error err)) →
      dlq_writes (process_message cfg c inp).2 = [mk_dlq_entry envelope err]) := by
  obtain ⟨parse_result, mime_result, webhook, dlq_ok⟩ := inp
  constructor
  · intro hparse
    simp only at hparse
    subst hparse
    simp [process_message]
  · intro envelope err parsed hparse hdlq hcase
    simp only at hparse hdlq
    subst hparse
    subst hdlq
    rcases hcase with hmime | ⟨hmime, hb, hres⟩
    · simp only at hmime
      subst hmime
      simp [process_message, handle_process_failure, dlq_writes]
    · simp only at hmime
      subst hmime
      rw [process_effects, if_neg (by simp [hb])]
      simp only at hres
      rw [hres]
      simp [dlq_writes_append, dlq_writes_map, dlq_writes]

/-- C3 witness: a malformed element only counts as failed, and a concrete
MIME failure on a parsed element produces exactly one DLQ entry wrapping
the envelope. -/
theorem C3_error_handling_witness :
    process_message {} {} ⟨none, .ok {}, fun _ => none, true⟩ =
      ({ consumed := 1, failed := 1 }, []) ∧
    dlq_writes
      (process_message {} {}
        ⟨some { message_id := js "m1" },
          .error { status := none, message := js "bad mime" },
          fun _ => none, true⟩).2 =
      [mk_dlq_entry { message_id := js "m1" }
        { status := none, message := js "bad mime" }] := by
  constructor
  · exact (C3_error_handling {} {} ⟨none, .ok {}, fun _ => none, true⟩).1 rfl
  · exact (C3_error_handling {} {}
      ⟨some { message_id := js "m1" },
        .error { status := none, message := js "bad mime" },
        fun _ => none, true⟩).2
      { message_id := js "m1" } { status := none, message := js "bad mime" } {}
      rfl rfl (Or.inl rfl)

/-- C10: after any sequence of completed `process_message` calls starting
from zeroed counters, `consumed = delivered + skipped_bounce + failed`, and
the `dlq` counter never exceeds `failed`. -/
theorem C10_counter_invariant (cfg : Cfg) (inputs : List WorkerInput) :
    (run_worker cfg inputs).consumed =
      (run_worker cfg inputs).delivered + (run_worker cfg inputs).skipped_bounce +
        (run_worker cfg inputs).failed ∧
    (run_worker cfg inputs).dlq ≤ (run_worker cfg inputs).failed := by
  suffices h : ∀ (l : List WorkerInput) (c : Counters),
      c.consumed = c.delivered + c.skipped_bounce + c.failed → c.dlq ≤ c.failed →
      (l.foldl (fun c inp => (process_message cfg c inp).1) c).consumed =
        (l.foldl (fun c inp => (process_message cfg c inp).1) c).delivered +
          (l.foldl (fun c inp => (process_message cfg c inp).1) c).skipped_bounce +
          (l.foldl (fun c inp => (process_message cfg c inp).1) c).failed ∧
      (l.foldl (fun c inp => (process_message cfg c inp).1) c).dlq ≤
        (l.foldl (fun c inp => (process_message cfg c inp).1) c).failed by
    exact h inputs {} rfl (Nat.le_refl 0)
  intro l
  induction l with
  | nil => intro c h1 h2; exact ⟨h1, h2⟩
  | cons inp t ih =>
      intro c h1 h2
      have hstep := process_message_inv cfg c inp h1 h2
      exact ih _ hstep.1 hstep.2

/-- `normalize_header` is the identity on any string that shows no C1
controls and no mojibake byte pairs: every accept-branch of the repair is
then disabled. -/
theorem normalize_header_fix (y : JStr) (hc : has_c1_controls y = false)
    (hp : count_mojibake_utf8_latin1_pairs y = 0) : normalize_header y = y := by
  unfold normalize_header try_repair_utf8_latin1_mojibake
  by_cases h1 : y.isEmpty
  · simp [h1]
  · by_cases h2 : y.any (fun cp => 0xFF < cp)
    · simp [h1, h2]
    · simp only [h1, h2, Bool.false_eq_true, if_false, if_neg]
      cases hdec : decode_utf8 y with
      | none => rfl
      | some repaired =>
          by_cases h3 : (repaired.isEmpty || repaired.contains 0xFFFD) = true
          · simp only [h3, eq_self_iff_true, if_true]
          · simp only [h3, Bool.false_eq_true, if_false, if_neg]
            simp [hc, hp]

/-- C2 (counterexample): `normalize_header` is not idempotent. On the
doubly mis-decoded string `\u00C3\u0083\u00C2\u00A9` one application
repairs one layer (to `\u00C3\u00A9`, accepted because the C1 control
0x83 is eliminated) and a second application repairs the remaining layer
(to `\u00E9`, accepted because the pair count drops), so
`normalize(normalize(x)) ≠ normalize(x)`. -/
theorem C2_normalize_not_idempotent :
    normalize_header (normalize_header [0xC3, 0x83, 0xC2, 0xA9]) ≠
      normalize_header [0xC3, 0x83, 0xC2, 0xA9] ∧
    normalize_header [0xC3, 0x83, 0xC2, 0xA9] = [0xC3, 0xA9] ∧
    normalize_header [0xC3, 0xA9] = [0xE9] :=
  ⟨by decide, by decide, by decide⟩

/-- C2 (amended): `normalize_header` is idempotent on every string whose
normalized output contains no C1 controls and no mojibake byte pairs; a
multiply mis-decoded string can be repaired again by a second application,
so idempotence does not hold in general. -/
theorem C2_normalize_idempotent_on_clean (x : JStr)
    (hc : has_c1_controls (normalize_header x) = false)
    (hp : count_mojibake_utf8_latin1_pairs (normalize_header x) = 0) :
    normalize_header (normalize_header x) = normalize_header x :=
  normalize_header_fix (normalize_header x) hc hp

/-- C2 witness: a plain ASCII string satisfies both side conditions and is
a fixed point of repeated normalization. -/
theorem C2_normalize_idempotent_on_clean_witness :
    has_c1_controls (normalize_header (js "hello")) = false ∧
    count_mojibake_utf8_latin1_pairs (normalize_header (js "hello")) = 0 ∧
    normalize_header (normalize_header (js "hello")) =
      normalize_header (js "hello") :=
  ⟨by decide, by decide,
    C2_normalize_idempotent_on_clean (js "hello") (by decide) (by decide)⟩

/-- C4: the retry loop classifies failures. A 4xx status other than 429 on
the first attempt re-raises immediately with a single call, no `retried`
increment and no sleep; if every attempt up to `webhook_max_retries` fails
non-permanently, the loop makes exactly `webhook_max_retries + 1` calls,
sleeps `webhook_max_retries` times and re-raises the last error; in every
run there are at most `webhook_max_retries + 1` calls, the k-th sleep is
`base_delay * 2 ^ k`, and the sleeps are non-decreasing. -/
theorem C4_retry_policy (cfg : Cfg) (oracle : Nat → Option Err) :
    (∀ e, oracle 0 = some e → is_permanent_4xx e = true →
      send_webhook_with_retry cfg oracle =
        { result := .error e, attempts := [false], retried := 0, delays := [] }) ∧
    ((∀ j, j ≤ cfg.webhook_max_retries →
        ∃ e, oracle j = some e ∧ is_permanent_4xx e = false) →
      (∀ e, oracle cfg.webhook_max_retries = some e →
        (send_webhook_with_retry cfg oracle).result = .error e) ∧
      (send_webhook_with_retry cfg oracle).attempts.length =
        cfg.webhook_max_retries + 1 ∧
      (send_webhook_with_retry cfg oracle).retried = cfg.webhook_max_retries ∧
      (send_webhook_with_retry cfg oracle).delays.length =
        cfg.webhook_max_retries) ∧
    (send_webhook_with_retry cfg oracle).attempts.length ≤
      cfg.webhook_max_retries + 1 ∧
    (send_webhook_with_retry cfg oracle).delays =
      (List.range (send_webhook_with_retry cfg oracle).delays.length).map
        (fun i => cfg.webhook_retry_base_delay_ms * 2 ^ i) ∧
    nondecreasing (send_webhook_with_retry cfg oracle).delays = true := by
  refine ⟨?_, ?_, ?_, ?_, ?_⟩
  · intro e h0 hperm
    simp [send_webhook_with_retry, send_go, h0, hperm]
  · intro hall
    have h := send_go_exhaust cfg.webhook_max_retries
      cfg.webhook_retry_base_delay_ms oracle (cfg.webhook_max_retries + 1) 0
      (by omega) (by omega) (fun j _ hjm => hall j hjm)
    exact ⟨h.1, by simpa using h.2.1, by simpa using h.2.2.1,
      by simpa using h.2.2.2⟩
  · exact send_go_attempts_le cfg.webhook_max_retries
      cfg.webhook_retry_base_delay_ms oracle (cfg.webhook_max_retries + 1) 0
  · have h := send_go_delays_shape cfg.webhook_max_retries
      cfg.webhook_retry_base_delay_ms oracle (cfg.webhook_max_retries + 1) 0
    rw [List.range_eq_range']
    exact h
  · have h2 : (send_webhook_with_retry cfg oracle).delays =
        (List.range' 0 (send_webhook_with_retry cfg oracle).delays.length).map
          (fun i => cfg.webhook_retry_base_delay_ms * 2 ^ i) :=
      send_go_delays_shape cfg.webhook_max_retries
        cfg.webhook_retry_base_delay_ms oracle (cfg.webhook_max_retries + 1) 0
    rw [h2]
    exact nondecreasing_pow_delays cfg.webhook_retry_base_delay_ms _ 0

/-- C4 witness: a 400 response aborts immediately with one call and no
sleep; an endpoint that always returns 503 exhausts the default five
retries with six calls. -/
theorem C4_retry_policy_witness :
    send_webhook_with_retry {} (fun _ => some { status := some 400, message := [] }) =
      { result := .error { status := some 400, message := [] },
        attempts := [false], retried := 0, delays := [] } ∧
    (send_webhook_with_retry {}
      (fun _ => some { status := some 503, message := [] })).attempts.length = 6 :=
  ⟨(C4_retry_policy {} _).1 { status := some 400, message := [] } rfl (by decide),
    ((C4_retry_policy {} (fun _ => some { status := some 503, message := [] })).2.1
      (fun j _ => ⟨{ status := some 503, message := [] }, rfl, by decide⟩)).2.1⟩

/-- C5: `enqueue` (an `lPush` of the serialized payload) followed by `pop`
(a `brPop`) on a queue untouched in between returns a string that
JSON-parses back to the payload, and entries enqueued in order are drained
in the same order (the store receives at the head and is consumed from the
tail). -/
theorem C5_queue_roundtrip_fifo :
    (∀ P : Json,
      QueueClient.pop (QueueClient.enqueue [] P) = (some (json_enc P), []) ∧
      json_parse (json_enc P) = some P) ∧
    (∀ ps : List Json,
      drain (ps.foldl QueueClient.enqueue []) = ps.map json_enc) ∧
    (∀ ps : List Json,
      (drain (ps.foldl QueueClient.enqueue [])).map json_parse = ps.map some) := by
  have hfifo : ∀ ps : List Json,
      drain (ps.foldl QueueClient.enqueue []) = ps.map json_enc := by
    intro ps
    rw [foldl_enqueue ps [], List.append_nil, drain_reverse, List.reverse_reverse]
  refine ⟨?_, hfifo, ?_⟩
  · intro P
    exact ⟨by simp [QueueClient.enqueue, QueueClient.pop], json_roundtrip P⟩
  · intro ps
    rw [hfifo ps, List.map_map]
    apply List.map_congr_left
    intro a _
    exact json_roundtrip a

/-- C6 (counterexample): the decoder's plain-text body is not run through
the normalizer. With body inclusion enabled and a decoder output whose text
body is the mojibake `\u00C3\u00A9`, the final `text_body` equals the raw
decoder output, which is not a fixed image of `normalize_header`. -/
theorem C6_body_not_normalized :
    (build_webhook_data {} {} { text := some [0xC3, 0xA9] }).text_body =
      [0xC3, 0xA9] ∧
    normalize_header [0xC3, 0xA9] ≠ [0xC3, 0xA9] :=
  ⟨by decide, by decide⟩

/-- C6 (amended): of the decoder's text fields, the subject and the from/to
address display texts are run through `normalize_header` before the payload
is final (the MIME stage also normalizes both subject candidates), but the
plain-text and HTML bodies are passed through verbatim. -/
theorem C6_normalized_fields (cfg : Cfg) (envelope : Envelope) (parsed : Parsed) :
    (build_webhook_data cfg envelope parsed).subject =
      normalize_header (parsed.subject.getD []) ∧
    (build_webhook_data cfg envelope parsed).from_email =
      normalize_header
        (match parsed.from_ with
         | some a => a.text
         | none => envelope.mail_from) ∧
    (build_webhook_data cfg envelope parsed).to_email =
      normalize_header
        (match parsed.to_ with
         | some a => a.text
         | none => (envelope.rcpt_to.head?).getD []) ∧
    (build_webhook_data cfg envelope parsed).text_body =
      (if cfg.include_body then parsed.text.getD [] else []) ∧
    (build_webhook_data cfg envelope parsed).html_body =
      (if cfg.include_body then parsed.html.getD [] else []) ∧
    ((normalize_parsed_headers parsed).subject =
        some (normalize_header (parsed.subject.getD [])) ∨
      (normalize_parsed_headers parsed).subject =
        some (normalize_header (parsed.header_subject.getD []))) := by
  refine ⟨rfl, rfl, rfl, rfl, rfl, ?_⟩
  by_cases hcond : (!(normalize_header (parsed.header_subject.getD [])).isEmpty &&
      decide (text_quality_score (normalize_header (parsed.header_subject.getD [])) <
        text_quality_score (normalize_header (parsed.subject.getD [])))) = true
  · exact Or.inr (by simp [normalize_parsed_headers, choose_best_subject,
      decode_subject_from_header_lines, hcond])
  · exact Or.inl (by simp [normalize_parsed_headers, choose_best_subject,
      decode_subject_from_header_lines, hcond])

/-- C7 (counterexample to the claimed strict/default divergence): the
decision table over every signal combination — null sender, sender pattern,
subject pattern, body marker count (collapsed to 0, 1, ≥2, the only
thresholds the rule reads) — is identical in strict and default mode, so no
input distinguishes the modes. -/
theorem C7_strict_equals_default_table :
    bounce_decision_table true = bounce_decision_table false := by decide

/-- C7 (amended): `is_bounce` applies the identical correlation rule in
strict and default mode: the two modes agree on every input. -/
theorem C7_strict_default_agree (from_email subject text_body : JStr)
    (envelope_from : Option JStr) :
    is_bounce from_email subject text_body
        { strict := true, envelope_from := envelope_from } =
      is_bounce from_email subject text_body
        { strict := false, envelope_from := envelope_from } := by
  simp [is_bounce, bounce_decision]

/-- C8: the three concrete bounce-detector evaluations: a DSN from a
mailer-daemon sender is a bounce, an ordinary message is not, and an empty
sender with no corroborating subject or body signal is not. -/
theorem C8_bounce_examples :
    is_bounce (js "mailer-daemon@x.com")
      (js "Undelivered Mail Returned to Sender")
      (js "Final-Recipient: rfc822; x@y.com\r\nAction: failed") {} = true ∧
    is_bounce (js "alice@example.com") (js "Hello") (js "Just saying hi") {} =
      false ∧
    is_bounce (js "") (js "Meeting notes") (js "") {} = false :=
  ⟨by decide, by decide, by decide⟩

/-- C9: `parse_mime` selects by the mojibake byte-pair score (computed by
`parsed_mojibake_score` over subject, text body, HTML body and address
display texts, each capped to a 4096-unit prefix): the strictly lower score
wins, a tie keeps the native-iconv strategy, and a decode-class error in
the first strategy falls back to the second unconditionally. -/
theorem C9_strategy_selection (p1 second : Parsed) (e : Err) :
    parse_mime (.ok p1) second =
      .ok (normalize_parsed_headers
        (if parsed_mojibake_score second < parsed_mojibake_score p1 then second
         else p1)) ∧
    parse_mime (.error e) second =
      (if is_charset_decode_error e then .ok (normalize_parsed_headers second)
       else .error e) := by
  constructor
  · by_cases h0 : parsed_mojibake_score p1 = 0
    · have hlt : ¬parsed_mojibake_score second < parsed_mojibake_score p1 := by
        omega
      simp [parse_mime, h0, hlt]
    · by_cases hlt : parsed_mojibake_score second < parsed_mojibake_score p1 <;>
        simp [parse_mime, h0, hlt]
  · rfl

end Elektrine
